import Mathlib

/-!
Verification development for the RSS ingestion pipeline (rss-keywords).

The Python source is shallowly embedded: pure functions become Lean
functions, the remote article table becomes an explicit `List Article`
threaded through the operations, and the external collaborators (the
feed parser, the translator, language detection, the YAKE keyword
extractor, and the two date-parsing libraries `email.utils.
parsedate_to_datetime` and `dateparser.parse`) are passed in as oracle
functions, since the spec treats them as black boxes.
-/

/-- A calendar date as carried by a Python `datetime` object.  Python
guarantees `1 ≤ year ≤ 9999`, `1 ≤ month ≤ 12`, `1 ≤ day ≤ 31` for every
`datetime`, so two decimal digits suffice for month and day and four for
the year. -/
structure Date where
  year : Nat
  month : Nat
  day : Nat
deriving DecidableEq, Repr

/-- The decimal digit character for `n % 10`. -/
def digitChar (n : Nat) : Char := Char.ofNat (48 + n % 10)

/-- `strftime('%Y-%m-%d')` / arrow `format('YYYY-MM-DD')`: zero-padded
`YYYY-MM-DD`.  Digit extraction is exact on the `datetime` ranges noted
at `Date`. -/
def formatYMD (d : Date) : String :=
  String.mk [digitChar (d.year / 1000), digitChar (d.year / 100), digitChar (d.year / 10),
    digitChar d.year, '-', digitChar (d.month / 10), digitChar d.month, '-',
    digitChar (d.day / 10), digitChar d.day]

/-- Whether the first list is a prefix of the second (Python string
matching helper). -/
def prefixAt : List Char → List Char → Bool
  | [], _ => true
  | _ :: _, [] => false
  | a :: as, b :: bs => a == b && prefixAt as bs

/-- Whether `p` occurs as a contiguous substring of the second list. -/
def occursIn (p : List Char) : List Char → Bool
  | [] => prefixAt p []
  | b :: bs => prefixAt p (b :: bs) || occursIn p bs

/-- Python's `pat in s` substring containment. -/
def containsSub (s pat : String) : Bool := occursIn pat.toList s.toList

/-- The three-letter weekday abbreviations listed at a.py line 179. -/
def weekdayAbbrevs : List String := ["Mon", "Tue", "Wed", "Thu", "Fri", "Sat", "Sun"]

/-- The RFC-2822 detection condition of a.py line 179: the string
contains a comma and some three-letter weekday abbreviation. -/
def rfcCandidate (s : String) : Bool :=
  containsSub s "," && weekdayAbbrevs.any (fun d => containsSub s d)

/-- a.py lines 187-198: `dateparser.parse` plus the arrow formatting,
with the parse-failure and exception paths both falling back to the
current UTC date.  `gen` is the `dateparser.parse` oracle (`none` for
both a `None` result and a raised exception). -/
def generalParseBranch (gen : String → Option Date) (now : Date) (s : String) : String :=
  match gen s with
  | some d => formatYMD d
  | none => formatYMD now

/-- a.py lines 175-198, `normalize_date`: route RFC-2822-looking strings
to `email.utils.parsedate_to_datetime` (oracle `rfc`) first, falling
through to the general parser on failure; otherwise parse with
`dateparser.parse` (oracle `gen`), falling back to the current UTC date
`now` on total failure. -/
def normalize_date (rfc gen : String → Option Date) (now : Date) (s : String) : String :=
  if rfcCandidate s then
    match rfc s with
    | some d => formatYMD d
    | none => generalParseBranch gen now s
  else generalParseBranch gen now s

/-- The canonical storage format: exactly `YYYY-MM-DD`, ten characters,
digits in the date positions and dashes between. -/
def isCanonicalYMD (s : String) : Bool :=
  match s.toList with
  | [y1, y2, y3, y4, h1, m1, m2, h2, d1, d2] =>
    y1.isDigit && y2.isDigit && y3.isDigit && y4.isDigit && h1 == '-' &&
    m1.isDigit && m2.isDigit && h2 == '-' && d1.isDigit && d2.isDigit
  | _ => false

/-- Python `str.lower()` (ASCII case folding, which is what the
denylist comparison exercises). -/
def lowerStr (s : String) : String := String.mk (s.toList.map Char.toLower)

/-- The static keyword denylist of a.py line 116 (`unwanted_keywords`). -/
def unwanted_keywords : List String :=
  ["pln", "pay", "margin-bottom", "display", "height", "monday", "tuesday", "wednesday",
   "thursday", "friday", "saturday", "sunday", "href", "rel", "months", "vspace", "image",
   "alt", "years", "head", "class", "time", "jpeg", "left", "width", "type", "year",
   "month", "day", "hspace", "src", "img", "align", "january", "february", "march",
   "april", "may", "june", "july", "august", "september", "october", "november", "december"]

/-- The seen-set deduplication idiom of a.py lines 127-128: keep the
first occurrence of each string, drop later repeats. -/
def dedupeAux (seen : List String) : List String → List String
  | [] => []
  | x :: xs => if x ∈ seen then dedupeAux seen xs else x :: dedupeAux (x :: seen) xs

/-- Duplicate removal preserving first-seen order (a.py lines 126-128,
also `dict.fromkeys` at line 231). -/
def dedupFirst (l : List String) : List String := dedupeAux [] l

/-- a.py lines 101-133, `extract_keywords`: the YAKE extractor itself is
an external black box, passed as the oracle `yakeKw` returning its
ranked keywords (scores are discarded by the code).  The repository code
lower-cases each keyword, drops those in the static denylist, and
deduplicates preserving first-seen order. -/
def extract_keywords (yakeKw : String → List String) (text : String) : List String :=
  dedupFirst ((yakeKw text).filterMap
    (fun k => if lowerStr k ∈ unwanted_keywords then none else some (lowerStr k)))

/-- One stored article record (the `articles` table row / the dict
assembled at a.py lines 233-241). -/
structure Article where
  title : String
  description : String
  link : String
  published : String
  original_language : String
  keywords : List String
  read : Bool
deriving DecidableEq, Repr

/-- One raw feed entry as surfaced by `feedparser`: the fields the
pipeline reads, with `published`/`updated` optional (`hasattr` checks at
a.py lines 215-218). -/
structure Entry where
  link : String
  title : String
  description : String
  published : Option String
  updated : Option String
deriving DecidableEq, Repr

/-- The external collaborators of the pipeline, as oracles:
`translate` = `translate_if_needed`, `detectLang` = `detect_language`,
`yakeKw` = the YAKE extractor output, `rfc` = `parsedate_to_datetime`,
`gen` = `dateparser.parse` (shared by `normalize_date` and
`save_articles`), `now`/`nowStr` = the current UTC date and its
`%Y-%m-%d` rendering. -/
structure Env where
  translate : String → String
  detectLang : String → String
  yakeKw : String → List String
  rfc : String → Option Date
  gen : String → Option Date
  now : Date
  nowStr : String

/-- The constant empty lookup table of a.py line 206
(`existing_articles = {}`). -/
def existing_articles : List (String × Bool) := []

/-- The per-entry body of `process_feed` (a.py lines 208-242): skip the
entry when its link is in the known-links set, otherwise normalize the
date, translate, extract keywords, and assemble the article record. -/
def processEntry (env : Env) (processed_urls : List String) (e : Entry) : Option Article :=
  if e.link ∈ processed_urls then none
  else
    let published0 :=
      match e.published with
      | some p => p
      | none =>
        match e.updated with
        | some u => u
        | none => env.nowStr
    let published := normalize_date env.rfc env.gen env.now published0
    let translated_title := env.translate e.title
    let translated_description := env.translate e.description
    let title_keywords := extract_keywords env.yakeKw translated_title
    let desc_keywords := extract_keywords env.yakeKw translated_description
    some { title := translated_title
           description := translated_description
           link := e.link
           published := published
           original_language := env.detectLang e.title
           keywords := dedupFirst (title_keywords ++ desc_keywords)
           read := (existing_articles.lookup e.link).getD false }

/-- a.py lines 200-250, `process_feed`: map the per-entry body over the
fetched entries; skipped entries contribute nothing. -/
def process_feed (env : Env) (entries : List Entry) (processed_urls : List String) : List Article :=
  entries.filterMap (processEntry env processed_urls)

/-- The links currently stored (what `load_processed_urls`, a.py lines
135-144, reads back from the table). -/
def storeLinks (store : List Article) : List String := store.map (fun a => a.link)

/-- No two stored records share a link. -/
def linksNodup (store : List Article) : Prop := (storeLinks store).Nodup

/-- Strict lexicographic order on character lists (the text comparison
the store's `lt` filter performs). -/
def charListLt : List Char → List Char → Bool
  | _, [] => false
  | [], _ :: _ => true
  | a :: as, b :: bs => Nat.blt a.toNat b.toNat || (a == b && charListLt as bs)

/-- Strict lexicographic order on strings, which on canonical
`YYYY-MM-DD` strings coincides with chronological order. -/
def strLt (s t : String) : Bool := charListLt s.toList t.toList

/-- The store adapter's range delete (`delete().lt('published', cutoff)`
at a.py lines 275 and 351, app.py line 523): remove every record whose
`published` is strictly below the cutoff and report how many were
removed. -/
def delete_older_than (cutoff : String) (store : List Article) : List Article × Nat :=
  ((store.filter fun a => !strLt a.published cutoff),
   (store.filter fun a => strLt a.published cutoff).length)

/-- The per-article body of the save loop (a.py lines 281-312): insert
only when no stored record has the same link; re-parse the published
date with `dateparser.parse` (`gen`), skipping the insert (`continue`)
when that fails. -/
def save_article (gen : String → Option Date) (store : List Article) (a : Article) : List Article :=
  if (store.filter fun b => b.link == a.link).isEmpty then
    match gen a.published with
    | some d => store ++ [{ a with published := formatYMD d }]
    | none => store
  else store

/-- a.py lines 264-319, `save_articles`: run the retention cleanup (the
cutoff string is the precomputed `now − 30 days`), then fold the
conditional inserts over the batch. -/
def save_articles (gen : String → Option Date) (cutoff : String) (store : List Article)
    (arts : List Article) : List Article :=
  arts.foldl (save_article gen) (delete_older_than cutoff store).1

/-- One feed's ingestion step as `main` performs it (a.py lines
388-397): process the feed against the current known-links set and call
`save_articles` only when the batch is non-empty; returns the new store
and the number of new articles reported for this feed. -/
def ingest (env : Env) (cutoff : String) (store : List Article) (entries : List Entry) :
    List Article × Nat :=
  if (process_feed env entries (storeLinks store)).isEmpty then (store, 0)
  else (save_articles env.gen cutoff store (process_feed env entries (storeLinks store)),
        (process_feed env entries (storeLinks store)).length)

/-- The feed loop of `main` (a.py lines 385-397): the known-links set
starts as the run-start snapshot and, after each feed with a non-empty
batch, is augmented with the links of the articles just saved (line
397); the total new-article count is accumulated. -/
def runFeedsCount (env : Env) (cutoff : String) : List Article → List String →
    List (List Entry) → List Article × Nat
  | store, _, [] => (store, 0)
  | store, known, f :: fs =>
    if (process_feed env f known).isEmpty then runFeedsCount env cutoff store known fs
    else
      ((runFeedsCount env cutoff (save_articles env.gen cutoff store (process_feed env f known))
          (known ++ (process_feed env f known).map (fun a => a.link)) fs).1,
       (process_feed env f known).length
         + (runFeedsCount env cutoff
             (save_articles env.gen cutoff store (process_feed env f known))
             (known ++ (process_feed env f known).map (fun a => a.link)) fs).2)

/-- Modelled from the spec: the feed-loop variant the claim describes,
in which every skip decision is evaluated against the run-start
snapshot only and links inserted earlier in the same run are never
consulted. -/
def runFeedsSnapshot (env : Env) (cutoff : String) : List Article → List String →
    List (List Entry) → List Article × Nat
  | store, _, [] => (store, 0)
  | store, known, f :: fs =>
    if (process_feed env f known).isEmpty then runFeedsSnapshot env cutoff store known fs
    else
      ((runFeedsSnapshot env cutoff
          (save_articles env.gen cutoff store (process_feed env f known)) known fs).1,
       (process_feed env f known).length
         + (runFeedsSnapshot env cutoff
             (save_articles env.gen cutoff store (process_feed env f known)) known fs).2)

/-- a.py lines 371-407, `main`: run the retention sweeper
(`delete_old_articles`, whose cutoff string `sweepCutoff` is `now − 1
month`), then, only if the configured feed list is non-empty, load the
known-links snapshot and run the feed loop.  `feeds` carries the entries
each configured URL resolves to; the empty URL list is the empty
`feeds`. -/
def mainRun (env : Env) (sweepCutoff saveCutoff : String) (store : List Article)
    (feeds : List (List Entry)) : List Article × Nat :=
  if feeds.isEmpty then ((delete_older_than sweepCutoff store).1, 0)
  else runFeedsCount env saveCutoff (delete_older_than sweepCutoff store).1
    (storeLinks (delete_older_than sweepCutoff store).1) feeds

/-- A concrete `dateparser.parse` oracle for witnesses: parses the two
date strings the demo fixtures use. -/
def genDemo : String → Option Date := fun s =>
  if s = "2024-06-10" then some ⟨2024, 6, 10⟩
  else if s = "2020-01-01" then some ⟨2020, 1, 1⟩
  else none

/-- A concrete oracle environment for witnesses: identity translation,
constant language detection, an extractor returning nothing, no
RFC-2822 parses, `genDemo` as the general parser, mid-June 2024 as the
current date. -/
def envDemo : Env :=
  { translate := fun t => t
    detectLang := fun _ => "en"
    yakeKw := fun _ => []
    rfc := fun _ => none
    gen := genDemo
    now := ⟨2024, 6, 15⟩
    nowStr := "2024-06-15" }

/-- A stored record published long before the demo retention cutoff,
marked read. -/
def oldArticle : Article :=
  { title := "Old", description := "", link := "L0", published := "2020-01-01",
    original_language := "en", keywords := [], read := true }

/-- A feed entry whose link is `oldArticle`'s: the feed still carries
the old story. -/
def entryOld : Entry :=
  { link := "L0", title := "Old", description := "", published := some "2020-01-01",
    updated := none }

/-- A fresh feed entry, published inside the retention horizon. -/
def entryNew : Entry :=
  { link := "L1", title := "T", description := "D", published := some "2024-06-10",
    updated := none }

/-- The article record `process_feed` assembles from `entryNew` under
`envDemo`. -/
def articleNew : Article :=
  { title := "T", description := "D", link := "L1", published := "2024-06-10",
    original_language := "en", keywords := [], read := false }

/-- The demo retention cutoff string (`now − 30 days` under `envDemo`). -/
def cutoffDemo : String := "2024-06-01"

/-- A stored record inside the retention horizon, marked read, whose
link the demo feed still carries. -/
def readArticle : Article :=
  { title := "R", description := "", link := "L2", published := "2024-06-05",
    original_language := "en", keywords := [], read := true }

/-- The feed entry matching `readArticle`'s link. -/
def entryRead : Entry :=
  { link := "L2", title := "R", description := "", published := some "2024-06-05",
    updated := none }

/-- A concrete `parsedate_to_datetime` oracle: succeeds exactly on the
spec's RFC-2822 example, as the library does. -/
def rfcDemo : String → Option Date := fun s =>
  if s = "Wed, 08 Jan 2025 17:57:38 -0000" then some ⟨2025, 1, 8⟩ else none

/-- A concrete `dateparser.parse` oracle matching the library's
documented behavior on the spec's three general-format examples. -/
def genDateDemo : String → Option Date := fun s =>
  if s = "2024-01-01" then some ⟨2024, 1, 1⟩
  else if s = "01/01/2024" then some ⟨2024, 1, 1⟩
  else if s = "Jan 1, 2024" then some ⟨2024, 1, 1⟩
  else none

/-- A YAKE oracle for the denylist counterexample: the extractor ranks
a capitalised word, a year token and a month name. -/
def yakeDemo : String → List String := fun _ => ["Deadline", "2024", "March"]

/-- A text containing the phrase the denylist claim quantifies over. -/
def textDemo : String := "The report was published in March 2024 before the deadline"

theorem charListLt_irrefl (l : List Char) : charListLt l l = false := by
  induction l with
  | nil => rfl
  | cons a as ih =>
    simp only [charListLt, ih, Bool.and_false, Bool.or_false]
    exact Bool.eq_false_iff.mpr fun h => Nat.lt_irrefl a.toNat (Nat.blt_eq ▸ h)

theorem strLt_irrefl (s : String) : strLt s s = false := charListLt_irrefl s.toList

theorem storeLinks_append_single (s : List Article) (a : Article) :
    storeLinks (s ++ [a]) = storeLinks s ++ [a.link] := by
  simp [storeLinks]

theorem mem_storeLinks {s : List Article} {l : String} :
    l ∈ storeLinks s ↔ ∃ a ∈ s, a.link = l := by
  simp [storeLinks]

theorem mem_dedupeAux {x : String} : ∀ (seen l : List String),
    x ∈ dedupeAux seen l ↔ x ∈ l ∧ x ∉ seen := by
  intro seen l
  induction l generalizing seen with
  | nil => simp [dedupeAux]
  | cons a as ih =>
    by_cases ha : a ∈ seen
    · simp only [dedupeAux, if_pos ha, ih]
      constructor
      · rintro ⟨h1, h2⟩
        exact ⟨List.mem_cons_of_mem _ h1, h2⟩
      · rintro ⟨h1, h2⟩
        rcases List.mem_cons.mp h1 with rfl | h1
        · exact absurd ha h2
        · exact ⟨h1, h2⟩
    · simp only [dedupeAux, if_neg ha, List.mem_cons, ih]
      constructor
      · rintro (rfl | ⟨h1, h2⟩)
        · exact ⟨Or.inl rfl, ha⟩
        · exact ⟨Or.inr h1, fun hx => h2 (Or.inr hx)⟩
      · rintro ⟨rfl | h1, h2⟩
        · exact Or.inl rfl
        · by_cases hxa : x = a
          · exact Or.inl hxa
          · refine Or.inr ⟨h1, fun hx => ?_⟩
            rcases hx with h | h
            · exact hxa h
            · exact h2 h

theorem nodup_dedupeAux : ∀ (seen l : List String), (dedupeAux seen l).Nodup := by
  intro seen l
  induction l generalizing seen with
  | nil => exact List.nodup_nil
  | cons a as ih =>
    by_cases ha : a ∈ seen
    · simpa [dedupeAux, if_pos ha] using ih seen
    · simp only [dedupeAux, if_neg ha]
      refine List.nodup_cons.mpr ⟨fun hmem => ?_, ih (a :: seen)⟩
      exact ((mem_dedupeAux (a :: seen) as).mp hmem).2 (List.mem_cons_self a seen)

theorem sublist_dedupeAux : ∀ (seen l : List String), List.Sublist (dedupeAux seen l) l := by
  intro seen l
  induction l generalizing seen with
  | nil => exact List.Sublist.refl []
  | cons a as ih =>
    by_cases ha : a ∈ seen
    · simpa [dedupeAux, if_pos ha] using (ih seen).cons a
    · simpa [dedupeAux, if_neg ha] using (ih (a :: seen)).cons₂ a

theorem mem_dedupFirst {x : String} {l : List String} : x ∈ dedupFirst l ↔ x ∈ l := by
  simp [dedupFirst, mem_dedupeAux]

theorem nodup_dedupFirst (l : List String) : (dedupFirst l).Nodup := nodup_dedupeAux [] l

theorem mem_extract_keywords {yakeKw : String → List String} {text : String} {k : String}
    (h : k ∈ extract_keywords yakeKw text) :
    k ∉ unwanted_keywords ∧ ∃ raw ∈ yakeKw text, k = lowerStr raw := by
  have h1 := mem_dedupFirst.mp h
  rcases List.mem_filterMap.mp h1 with ⟨raw, hraw, hk⟩
  by_cases hm : lowerStr raw ∈ unwanted_keywords
  · simp [hm] at hk
  · simp only [if_neg hm, Option.some.injEq] at hk
    exact ⟨hk ▸ hm, raw, hraw, hk.symm⟩

theorem mem_of_mem_save_article {gen : String → Option Date} {s : List Article} {a r : Article}
    (h : r ∈ save_article gen s a) : r ∈ s ∨ r.link = a.link := by
  unfold save_article at h
  split at h
  · split at h
    · rcases List.mem_append.mp h with h1 | h1
      · exact Or.inl h1
      · right
        have hr := List.mem_singleton.mp h1
        subst hr
        rfl
    · exact Or.inl h
  · exact Or.inl h

theorem mem_save_article_of_mem {gen : String → Option Date} {s : List Article} {a r : Article}
    (h : r ∈ s) : r ∈ save_article gen s a := by
  unfold save_article
  split
  · split
    · exact List.mem_append.mpr (Or.inl h)
    · exact h
  · exact h

theorem not_mem_links_of_filter_empty {s : List Article} {l : String}
    (h : (s.filter fun b => b.link == l).isEmpty = true) : l ∉ storeLinks s := by
  intro hmem
  rcases mem_storeLinks.mp hmem with ⟨b, hb, hlink⟩
  have hfil : b ∈ s.filter fun b => b.link == l :=
    List.mem_filter.mpr ⟨hb, by simp [hlink]⟩
  rw [List.isEmpty_iff] at h
  rw [h] at hfil
  cases hfil

theorem linksNodup_save_article {gen : String → Option Date} {s : List Article} {a : Article}
    (h : linksNodup s) : linksNodup (save_article gen s a) := by
  unfold save_article
  split
  next hemp =>
    split
    next d hd =>
      have hnot : a.link ∉ storeLinks s := not_mem_links_of_filter_empty hemp
      unfold linksNodup
      rw [storeLinks_append_single]
      simp only [List.nodup_append, List.nodup_singleton, List.disjoint_singleton]
      exact ⟨h, trivial, hnot⟩
    next => exact h
  next => exact h

theorem links_mono_save_article {gen : String → Option Date} {s : List Article} {a : Article}
    {l : String} (h : l ∈ storeLinks s) : l ∈ storeLinks (save_article gen s a) := by
  rcases mem_storeLinks.mp h with ⟨b, hb, hlink⟩
  exact mem_storeLinks.mpr ⟨b, mem_save_article_of_mem hb, hlink⟩

theorem link_mem_save_article {gen : String → Option Date} {s : List Article} {a : Article}
    (h : (gen a.published).isSome = true) : a.link ∈ storeLinks (save_article gen s a) := by
  unfold save_article
  split
  next hemp =>
    cases hg : gen a.published with
    | none => rw [hg] at h; cases h
    | some d =>
      simp only [hg]
      rw [storeLinks_append_single]
      exact List.mem_append.mpr (Or.inr (List.mem_singleton.mpr rfl))
  next hemp =>
    have hne : s.filter (fun b => b.link == a.link) ≠ [] := by
      intro hnil
      exact hemp (by rw [hnil]; rfl)
    rcases List.exists_mem_of_ne_nil _ hne with ⟨b, hb⟩
    have hb2 := List.mem_filter.mp hb
    have hlink : b.link = a.link := by simpa using hb2.2
    exact mem_storeLinks.mpr ⟨b, hb2.1, hlink⟩

theorem mem_foldl_save {gen : String → Option Date} :
    ∀ (arts s : List Article) (r : Article), r ∈ arts.foldl (save_article gen) s →
      r ∈ s ∨ ∃ a ∈ arts, r.link = a.link := by
  intro arts
  induction arts with
  | nil => intro s r h; exact Or.inl h
  | cons a as ih =>
    intro s r h
    rw [List.foldl_cons] at h
    rcases ih (save_article gen s a) r h with h1 | ⟨b, hb, hlink⟩
    · rcases mem_of_mem_save_article h1 with h2 | h2
      · exact Or.inl h2
      · exact Or.inr ⟨a, List.mem_cons_self a as, h2⟩
    · exact Or.inr ⟨b, List.mem_cons_of_mem a hb, hlink⟩

theorem linksNodup_foldl_save {gen : String → Option Date} :
    ∀ (arts s : List Article), linksNodup s → linksNodup (arts.foldl (save_article gen) s) := by
  intro arts
  induction arts with
  | nil => intro s h; exact h
  | cons a as ih =>
    intro s h
    rw [List.foldl_cons]
    exact ih _ (linksNodup_save_article h)

theorem links_mono_foldl_save {gen : String → Option Date} :
    ∀ (arts s : List Article) (l : String), l ∈ storeLinks s →
      l ∈ storeLinks (arts.foldl (save_article gen) s) := by
  intro arts
  induction arts with
  | nil => intro s l h; exact h
  | cons a as ih =>
    intro s l h
    rw [List.foldl_cons]
    exact ih _ _ (links_mono_save_article h)

theorem link_mem_foldl_save {gen : String → Option Date} :
    ∀ (arts s : List Article) (a : Article), a ∈ arts → (gen a.published).isSome = true →
      a.link ∈ storeLinks (arts.foldl (save_article gen) s) := by
  intro arts
  induction arts with
  | nil => intro s a h; cases h
  | cons b bs ih =>
    intro s a hmem hsome
    rw [List.foldl_cons]
    rcases List.mem_cons.mp hmem with rfl | hmem
    · exact links_mono_foldl_save bs _ _ (link_mem_save_article hsome)
    · exact ih _ a hmem hsome

theorem mem_delete_older_than {c : String} {s : List Article} {r : Article} :
    r ∈ (delete_older_than c s).1 ↔ r ∈ s ∧ strLt r.published c = false := by
  simp [delete_older_than, List.mem_filter]

theorem linksNodup_delete_older_than {c : String} {s : List Article} (h : linksNodup s) :
    linksNodup (delete_older_than c s).1 :=
  List.Nodup.sublist (List.Sublist.map _ (List.filter_sublist s)) h

theorem processEntry_eq_none {env : Env} {known : List String} {e : Entry}
    (h : e.link ∈ known) : processEntry env known e = none := by
  unfold processEntry
  simp [h]

theorem processEntry_eq_some {env : Env} {known : List String} {e : Entry}
    (h : e.link ∉ known) :
    ∃ a, processEntry env known e = some a ∧ a.link = e.link ∧ a.read = false := by
  unfold processEntry
  rw [if_neg h]
  exact ⟨_, rfl, rfl, rfl⟩

theorem mem_process_feed {env : Env} {entries : List Entry} {known : List String} {a : Article}
    (h : a ∈ process_feed env entries known) :
    ∃ e ∈ entries, processEntry env known e = some a := by
  simpa [process_feed] using List.mem_filterMap.mp h

theorem mem_process_feed_spec {env : Env} {entries : List Entry} {known : List String}
    {a : Article} (h : a ∈ process_feed env entries known) :
    a.link ∉ known ∧ a.read = false ∧ ∃ e ∈ entries, a.link = e.link := by
  rcases mem_process_feed h with ⟨e, he, hsome⟩
  by_cases hk : e.link ∈ known
  · rw [processEntry_eq_none hk] at hsome
    cases hsome
  · rcases @processEntry_eq_some env _ _ hk with ⟨b, hb, hlink, hread⟩
    rw [hb] at hsome
    have hba := Option.some.inj hsome
    subst hba
    exact ⟨hlink ▸ hk, hread, e, he, hlink⟩

theorem process_feed_eq_nil {env : Env} {entries : List Entry} {known : List String}
    (h : ∀ e ∈ entries, e.link ∈ known) : process_feed env entries known = [] := by
  unfold process_feed
  rw [List.filterMap_eq_nil_iff]
  intro e he
  exact processEntry_eq_none (h e he)

theorem filter_link_length_le_one : ∀ {s : List Article} {l : String}, linksNodup s →
    (s.filter fun r => r.link == l).length ≤ 1 := by
  intro s
  induction s with
  | nil => intro l _; simp
  | cons a t ih =>
    intro l h
    unfold linksNodup storeLinks at h
    rw [List.map_cons, List.nodup_cons] at h
    by_cases hl : (a.link == l) = true
    · have hal : a.link = l := by simpa using hl
      have ht : t.filter (fun r => r.link == l) = [] := by
        rw [List.filter_eq_nil_iff]
        intro b hb hbl
        apply h.1
        have hbll : b.link = l := by simpa using hbl
        exact List.mem_map.mpr ⟨b, hb, by rw [hbll, hal]⟩
      simp [List.filter_cons, hl, ht]
    · simp only [List.filter_cons, hl, if_neg, Bool.false_eq_true, if_false]
      exact ih h.2

theorem digitChar_isDigit (n : Nat) : (digitChar n).isDigit = true := by
  have h : n % 10 < 10 := Nat.mod_lt _ (by decide)
  have hall : ∀ m < 10, (Char.ofNat (48 + m)).isDigit = true := by decide
  exact hall (n % 10) h

theorem isCanonicalYMD_formatYMD (d : Date) : isCanonicalYMD (formatYMD d) = true := by
  simp [isCanonicalYMD, formatYMD, String.toList, digitChar_isDigit]


/-- C4: on any input where the RFC-2822 parser and the general parser
both fail, `normalize_date` returns the current UTC date in canonical
`YYYY-MM-DD` form — never the raw input and never an exception (the
embedding is total) — and on every input whatsoever its result is
exactly in the canonical `YYYY-MM-DD` format. -/
theorem c4_total_failure_fallback (rfc gen : String → Option Date) (now : Date) (s : String)
    (hr : rfc s = none) (hg : gen s = none) :
    normalize_date rfc gen now s = formatYMD now
    ∧ ∀ t : String, isCanonicalYMD (normalize_date rfc gen now t) = true := by
  constructor
  · unfold normalize_date generalParseBranch
    split
    · rw [hr, hg]
    · rw [hg]
  · intro t
    unfold normalize_date generalParseBranch
    split
    · cases hrt : rfc t with
      | some d => simp only [hrt]; exact isCanonicalYMD_formatYMD d
      | none =>
        simp only [hrt]
        cases hgt : gen t with
        | some d => simp only [hgt]; exact isCanonicalYMD_formatYMD d
        | none => simp only [hgt]; exact isCanonicalYMD_formatYMD now
    · cases hgt : gen t with
      | some d => simp only [hgt]; exact isCanonicalYMD_formatYMD d
      | none => simp only [hgt]; exact isCanonicalYMD_formatYMD now

/-- C4 witness: both parser oracles fail on a concrete garbage string
and the fallback is the formatted current date, in canonical form. -/
theorem c4_total_failure_fallback_witness :
    normalize_date (fun _ => none) (fun _ => none) ⟨2024, 2, 3⟩ "not a date" = "2024-02-03"
    ∧ isCanonicalYMD
        (normalize_date (fun _ => none) (fun _ => none) ⟨2024, 2, 3⟩ "not a date") = true := by
  have h := c4_total_failure_fallback (fun _ => none) (fun _ => none) ⟨2024, 2, 3⟩ "not a date"
    rfl rfl
  exact ⟨by rw [h.1]; decide, h.2 "not a date"⟩

/-- C5: the four spec round-trip inputs yield the expected canonical
outputs; the routing and formatting are the repository's, while the
two parser libraries are oracles constrained to their documented
results on exactly these inputs. -/
theorem c5_date_roundtrip (rfc gen : String → Option Date) (now : Date)
    (h1 : gen "2024-01-01" = some ⟨2024, 1, 1⟩)
    (h2 : gen "01/01/2024" = some ⟨2024, 1, 1⟩)
    (h3 : gen "Jan 1, 2024" = some ⟨2024, 1, 1⟩)
    (h4 : rfc "Wed, 08 Jan 2025 17:57:38 -0000" = some ⟨2025, 1, 8⟩) :
    normalize_date rfc gen now "2024-01-01" = "2024-01-01"
    ∧ normalize_date rfc gen now "01/01/2024" = "2024-01-01"
    ∧ normalize_date rfc gen now "Jan 1, 2024" = "2024-01-01"
    ∧ normalize_date rfc gen now "Wed, 08 Jan 2025 17:57:38 -0000" = "2025-01-08" := by
  refine ⟨?_, ?_, ?_, ?_⟩
  · unfold normalize_date generalParseBranch
    rw [if_neg (by decide), h1]
    rfl
  · unfold normalize_date generalParseBranch
    rw [if_neg (by decide), h2]
    rfl
  · unfold normalize_date generalParseBranch
    rw [if_neg (by decide), h3]
    rfl
  · unfold normalize_date
    rw [if_pos (by decide), h4]
    rfl

/-- C5 witness: the round-trip evaluated with concrete parser oracles. -/
theorem c5_date_roundtrip_witness :
    normalize_date rfcDemo genDateDemo ⟨2024, 6, 15⟩ "2024-01-01" = "2024-01-01"
    ∧ normalize_date rfcDemo genDateDemo ⟨2024, 6, 15⟩ "01/01/2024" = "2024-01-01"
    ∧ normalize_date rfcDemo genDateDemo ⟨2024, 6, 15⟩ "Jan 1, 2024" = "2024-01-01"
    ∧ normalize_date rfcDemo genDateDemo ⟨2024, 6, 15⟩ "Wed, 08 Jan 2025 17:57:38 -0000"
        = "2025-01-08" :=
  c5_date_roundtrip rfcDemo genDateDemo ⟨2024, 6, 15⟩ (by decide) (by decide) (by decide)
    (by decide)

/-- C6: the RFC-2822-specific parser is routed to first exactly when
the string contains a comma and a three-letter weekday abbreviation
(`rfcCandidate`); when that parse fails the function falls through to
the general branch; and when the condition is false the result is the
general branch and is independent of the RFC oracle (it is never
consulted). -/
theorem c6_rfc_routing (rfc rfc2 gen : String → Option Date) (now : Date) (s : String) :
    (rfcCandidate s = true → ∀ d, rfc s = some d → normalize_date rfc gen now s = formatYMD d)
    ∧ (rfcCandidate s = true → rfc s = none →
        normalize_date rfc gen now s = generalParseBranch gen now s)
    ∧ (rfcCandidate s = false →
        normalize_date rfc gen now s = generalParseBranch gen now s
        ∧ normalize_date rfc gen now s = normalize_date rfc2 gen now s) := by
  refine ⟨?_, ?_, ?_⟩
  · intro hc d hd
    simp [normalize_date, hc, hd]
  · intro hc hd
    simp [normalize_date, hc, hd]
  · intro hc
    constructor
    · simp [normalize_date, hc]
    · simp [normalize_date, hc]

/-- C6 witness: the three routing behaviors at concrete inputs — an
RFC-2822 string with a succeeding RFC oracle, the same string with a
failing RFC oracle falling through, and a non-candidate string whose
result ignores the RFC oracle. -/
theorem c6_rfc_routing_witness :
    normalize_date rfcDemo genDateDemo ⟨2024, 6, 15⟩ "Wed, 08 Jan 2025 17:57:38 -0000"
        = "2025-01-08"
    ∧ normalize_date (fun _ => none) genDateDemo ⟨2024, 6, 15⟩ "Wed, 08 Jan 2025 17:57:38 -0000"
        = generalParseBranch genDateDemo ⟨2024, 6, 15⟩ "Wed, 08 Jan 2025 17:57:38 -0000"
    ∧ normalize_date rfcDemo genDateDemo ⟨2024, 6, 15⟩ "2024-01-01"
        = normalize_date (fun _ => none) genDateDemo ⟨2024, 6, 15⟩ "2024-01-01" := by
  refine ⟨?_, ?_, ?_⟩
  · have h := (c6_rfc_routing rfcDemo (fun _ => none) genDateDemo ⟨2024, 6, 15⟩
      "Wed, 08 Jan 2025 17:57:38 -0000").1 (by decide) ⟨2025, 1, 8⟩ (by decide)
    rw [h]
    decide
  · exact (c6_rfc_routing (fun _ => none) rfcDemo genDateDemo ⟨2024, 6, 15⟩
      "Wed, 08 Jan 2025 17:57:38 -0000").2.1 (by decide) rfl
  · exact ((c6_rfc_routing rfcDemo (fun _ => none) genDateDemo ⟨2024, 6, 15⟩
      "2024-01-01").2.2 (by decide)).2

theorem filterMap_guard_sublist (l : List String) :
    List.Sublist
      (l.filterMap fun k => if lowerStr k ∈ unwanted_keywords then none else some (lowerStr k))
      (l.map lowerStr) := by
  induction l with
  | nil => simp
  | cons a t ih =>
    rw [List.filterMap_cons, List.map_cons]
    by_cases h : lowerStr a ∈ unwanted_keywords
    · simp only [if_pos h]
      exact ih.cons _
    · simp only [if_neg h]
      exact ih.cons₂ _

/-- C7 (amended): the extractor output is an oracle; the repository
filter guarantees that "march" (a denylist member) never survives, that
no surviving keyword is in the static denylist, that every survivor is
the lower-cased form of an extractor candidate, and that the result is
duplicate-free in first-seen extractor order.  The token "2024" is not
in the denylist, so nothing in the repository code excludes it. -/
theorem c7_denylist_filtering (yakeKw : String → List String) (text : String) :
    "march" ∉ extract_keywords yakeKw text
    ∧ (∀ k ∈ extract_keywords yakeKw text, k ∉ unwanted_keywords)
    ∧ (extract_keywords yakeKw text).Nodup
    ∧ List.Sublist (extract_keywords yakeKw text) ((yakeKw text).map lowerStr)
    ∧ ∀ k ∈ extract_keywords yakeKw text, ∃ raw ∈ yakeKw text, k = lowerStr raw := by
  have hm : ∀ k ∈ extract_keywords yakeKw text, k ∉ unwanted_keywords :=
    fun k hk => (mem_extract_keywords hk).1
  refine ⟨fun h => hm _ h (by decide), hm, nodup_dedupFirst _, ?_,
    fun k hk => (mem_extract_keywords hk).2⟩
  exact List.Sublist.trans (sublist_dedupeAux [] _) (filterMap_guard_sublist _)

/-- C7 witness: the denylist guarantee evaluated at the concrete
extractor oracle and text. -/
theorem c7_denylist_filtering_witness : "march" ∉ extract_keywords yakeDemo textDemo :=
  (c7_denylist_filtering yakeDemo textDemo).1

/-- C7 counterexample: on a text containing the quantified phrase, an
extractor output ranking the token "2024" survives the filter — the
static denylist does not contain year tokens — so the claimed absence
of "2024"-derived tokens fails. -/
theorem c7_counterexample :
    containsSub textDemo "published in March 2024" = true
    ∧ extract_keywords yakeDemo textDemo = ["deadline", "2024"] := by decide

/-- C8: the range delete keeps exactly the stored records not strictly
older than the cutoff (a record published exactly at the cutoff is
retained), returns the count of removed records, and with zero matching
records returns the store unchanged with count 0 rather than failing. -/
theorem c8_delete_older_than (cutoff : String) (store : List Article) :
    (∀ a ∈ store, (a ∈ (delete_older_than cutoff store).1 ↔ strLt a.published cutoff = false))
    ∧ (∀ a ∈ store, a.published = cutoff → a ∈ (delete_older_than cutoff store).1)
    ∧ (delete_older_than cutoff store).2 = store.countP (fun a => strLt a.published cutoff)
    ∧ ((∀ a ∈ store, strLt a.published cutoff = false) →
        delete_older_than cutoff store = (store, 0)) := by
  refine ⟨?_, ?_, ?_, ?_⟩
  · intro a ha
    rw [mem_delete_older_than]
    exact ⟨fun h => h.2, fun h => ⟨ha, h⟩⟩
  · intro a ha heq
    rw [mem_delete_older_than]
    exact ⟨ha, by rw [heq]; exact strLt_irrefl cutoff⟩
  · exact (List.countP_eq_length_filter _ _).symm
  · intro h
    unfold delete_older_than
    have h1 : store.filter (fun a => !strLt a.published cutoff) = store :=
      List.filter_eq_self.mpr (fun a ha => by rw [h a ha]; rfl)
    have h2 : store.filter (fun a => strLt a.published cutoff) = [] :=
      List.filter_eq_nil_iff.mpr (fun a ha => by simp [h a ha])
    rw [h1, h2]
    rfl

/-- C8 witness: deleting with a cutoff no stored record predates is a
no-op returning 0. -/
theorem c8_delete_older_than_witness :
    delete_older_than cutoffDemo [articleNew] = ([articleNew], 0) :=
  (c8_delete_older_than cutoffDemo [articleNew]).2.2.2 (by decide)

/-- C10: every article record assembled by `process_feed` carries
`read = false`, for any oracles, entries and known-links set: the
prior-read lookup table inside `process_feed` is the constant empty
dict. -/
theorem c10_read_always_false (env : Env) (known : List String) (entries : List Entry) :
    ∀ a ∈ process_feed env entries known, a.read = false :=
  fun _ ha => (mem_process_feed_spec ha).2.1

/-- C10 witness: the record produced from the concrete fresh entry has
`read = false`. -/
theorem c10_read_always_false_witness : articleNew.read = false :=
  c10_read_always_false envDemo [] [entryNew] articleNew (by decide)

theorem save_articles_read_preserved (gen : String → Option Date) (cutoff : String)
    (store arts : List Article) (l : String)
    (hnd : linksNodup store)
    (harts : ∀ a ∈ arts, a.link ∉ storeLinks store)
    (hread : ∀ r ∈ store, r.link = l → r.read = true)
    (hl : l ∈ storeLinks store) :
    linksNodup (save_articles gen cutoff store arts)
    ∧ ∀ r ∈ save_articles gen cutoff store arts, r.link = l → r ∈ store ∧ r.read = true := by
  unfold save_articles
  constructor
  · exact linksNodup_foldl_save _ _ (linksNodup_delete_older_than hnd)
  · intro r hr hrl
    rcases mem_foldl_save _ _ _ hr with h1 | ⟨a, ha, hlink⟩
    · have h2 := (mem_delete_older_than.mp h1).1
      exact ⟨h2, hread r h2 hrl⟩
    · exfalso
      apply harts a ha
      rw [← hlink, hrl]
      exact hl

/-- C1: from a store with no duplicate links containing link `l` only
on records marked read, one ingestion step over a feed still carrying
`l` yields a store that still has no duplicate links, holds at most one
record with link `l`, and in which every record with link `l` is an
original stored record with its `read = true` flag intact:
`process_feed` skips known links and `save_articles` inserts a record
only when no stored record with that link exists. -/
theorem c1_no_duplicate_no_read_reset (env : Env) (cutoff : String) (store : List Article)
    (entries : List Entry) (l : String)
    (hnd : linksNodup store)
    (hstored : l ∈ storeLinks store)
    (_hfeed : l ∈ entries.map (fun e => e.link))
    (hread : ∀ r ∈ store, r.link = l → r.read = true) :
    linksNodup (ingest env cutoff store entries).1
    ∧ ((ingest env cutoff store entries).1.filter fun r => r.link == l).length ≤ 1
    ∧ ∀ r ∈ (ingest env cutoff store entries).1, r.link = l → r ∈ store ∧ r.read = true := by
  have harts : ∀ a ∈ process_feed env entries (storeLinks store), a.link ∉ storeLinks store :=
    fun a ha => (mem_process_feed_spec ha).1
  unfold ingest
  split
  · exact ⟨hnd, filter_link_length_le_one hnd,
      fun r hr hrl => ⟨hr, hread r hr hrl⟩⟩
  · have hcore := save_articles_read_preserved env.gen cutoff store
      (process_feed env entries (storeLinks store)) l hnd harts hread hstored
    exact ⟨hcore.1, filter_link_length_le_one hcore.1, hcore.2⟩

/-- C1 witness: re-ingesting the demo feed over a store holding the
read record whose link the feed still carries leaves at most one
record with that link. -/
theorem c1_no_duplicate_no_read_reset_witness :
    ((ingest envDemo cutoffDemo [readArticle] [entryRead, entryNew]).1.filter
      fun r => r.link == "L2").length ≤ 1 :=
  (c1_no_duplicate_no_read_reset envDemo cutoffDemo [readArticle] [entryRead, entryNew] "L2"
    (by unfold linksNodup; decide) (by decide) (by decide) (by decide)).2.1

theorem all_known_of_process_feed_nil {env : Env} {entries : List Entry} {known : List String}
    (h : process_feed env entries known = []) : ∀ e ∈ entries, e.link ∈ known := by
  intro e he
  by_contra hk
  rcases @processEntry_eq_some env _ _ hk with ⟨a, ha, _, _⟩
  have hmem : a ∈ process_feed env entries known := List.mem_filterMap.mpr ⟨e, he, ha⟩
  rw [h] at hmem
  cases hmem

theorem ingest_eq_of_all_known {env : Env} {cutoff : String} {store : List Article}
    {entries : List Entry} (h : ∀ e ∈ entries, e.link ∈ storeLinks store) :
    ingest env cutoff store entries = (store, 0) := by
  unfold ingest
  rw [process_feed_eq_nil h]
  rfl

/-- C2 (amended): re-running the pipeline on an unchanged feed yields
zero new records and leaves the store untouched, provided (i) no stored
record whose link the feed still carries is older than the first run's
in-save cleanup cutoff (otherwise that cleanup deletes it and the
second run re-ingests it) and (ii) the save-time date re-parse succeeds
for every article of the first batch (otherwise its insert is skipped). -/
theorem c2_idempotent_reingestion (env : Env) (cutoff cutoff2 : String) (store : List Article)
    (entries : List Entry)
    (h1 : ∀ r ∈ store, r.link ∈ entries.map (fun e => e.link) →
      strLt r.published cutoff = false)
    (h2 : ∀ a ∈ process_feed env entries (storeLinks store),
      (env.gen a.published).isSome = true) :
    ingest env cutoff2 (ingest env cutoff store entries).1 entries
      = ((ingest env cutoff store entries).1, 0) := by
  apply ingest_eq_of_all_known
  intro e he
  by_cases hempty : (process_feed env entries (storeLinks store)).isEmpty = true
  · have hstep : ingest env cutoff store entries = (store, 0) := by
      unfold ingest
      rw [if_pos hempty]
    rw [hstep]
    exact all_known_of_process_feed_nil (List.isEmpty_iff.mp hempty) e he
  · have hstep : (ingest env cutoff store entries).1
        = save_articles env.gen cutoff store (process_feed env entries (storeLinks store)) := by
      unfold ingest
      rw [if_neg hempty]
    rw [hstep]
    unfold save_articles
    by_cases hk : e.link ∈ storeLinks store
    · rcases mem_storeLinks.mp hk with ⟨r, hr, hrl⟩
      have hkeep : r ∈ (delete_older_than cutoff store).1 := by
        rw [mem_delete_older_than]
        refine ⟨hr, h1 r hr ?_⟩
        rw [hrl]
        exact List.mem_map.mpr ⟨e, he, rfl⟩
      exact links_mono_foldl_save _ _ _ (mem_storeLinks.mpr ⟨r, hkeep, hrl⟩)
    · rcases @processEntry_eq_some env _ _ hk with ⟨a, ha, hlink, _⟩
      have hmem : a ∈ process_feed env entries (storeLinks store) :=
        List.mem_filterMap.mpr ⟨e, he, ha⟩
      have hres := link_mem_foldl_save _ ((delete_older_than cutoff store).1) a hmem (h2 a hmem)
      rw [hlink] at hres
      exact hres

/-- C2 witness: re-ingesting the fresh demo feed over the store the
first run produced yields zero new records and the same store. -/
theorem c2_idempotent_reingestion_witness :
    ingest envDemo cutoffDemo (ingest envDemo cutoffDemo [] [entryNew]).1 [entryNew]
      = ((ingest envDemo cutoffDemo [] [entryNew]).1, 0) :=
  c2_idempotent_reingestion envDemo cutoffDemo cutoffDemo [] [entryNew]
    (by decide) (by decide)

/-- C2 counterexample: a stored record older than the cleanup cutoff
whose link the unchanged feed still carries is deleted by the first
run's in-save cleanup, so the second run over the identical feed
produces one new record (not zero) and the stored count grows from 1
to 2. -/
theorem c2_counterexample :
    (ingest envDemo cutoffDemo
        (ingest envDemo cutoffDemo [oldArticle] [entryOld, entryNew]).1 [entryOld, entryNew]).2
      = 1
    ∧ (ingest envDemo cutoffDemo
        (ingest envDemo cutoffDemo [oldArticle] [entryOld, entryNew]).1 [entryOld, entryNew]).1.length
      = 2
    ∧ (ingest envDemo cutoffDemo [oldArticle] [entryOld, entryNew]).1.length = 1 := by decide

/-- C3 (amended): within one run of the feed loop, the skip set for a
feed is the run-start snapshot augmented with the links of the articles
saved from the earlier feeds of the same run: if every entry of the
second feed is covered by the snapshot or by the first feed's saved
links, the second feed contributes no new articles, and the run's total
is the first feed's count alone. -/
theorem c3_skip_set_augmented (env : Env) (cutoff : String) (store : List Article)
    (f g : List Entry)
    (h1 : (process_feed env f (storeLinks store)).isEmpty = false)
    (h2 : ∀ e ∈ g, e.link ∈ storeLinks store
        ∨ e.link ∈ (process_feed env f (storeLinks store)).map (fun a => a.link)) :
    (runFeedsCount env cutoff store (storeLinks store) [f, g]).2
      = (process_feed env f (storeLinks store)).length := by
  have hg : process_feed env g
      (storeLinks store ++ (process_feed env f (storeLinks store)).map (fun a => a.link))
      = [] := by
    apply process_feed_eq_nil
    intro e he
    rcases h2 e he with h | h
    · exact List.mem_append.mpr (Or.inl h)
    · exact List.mem_append.mpr (Or.inr h)
  simp only [runFeedsCount]
  rw [hg]
  simp [h1]

/-- C3 witness: a run over two copies of the fresh demo feed reports
exactly the first copy's count. -/
theorem c3_skip_set_augmented_witness :
    (runFeedsCount envDemo cutoffDemo [] (storeLinks []) [[entryNew], [entryNew]]).2
      = (process_feed envDemo [entryNew] (storeLinks [])).length :=
  c3_skip_set_augmented envDemo cutoffDemo [] [entryNew] [entryNew] (by decide) (by decide)

/-- C3 counterexample: the code's feed loop consults links inserted
earlier in the same run — over two feeds both carrying the same fresh
entry it reports 1 new article, while the loop the claim describes,
which evaluates every skip against the run-start snapshot only, would
report 2. -/
theorem c3_counterexample :
    (runFeedsCount envDemo cutoffDemo [] [] [[entryNew], [entryNew]]).2 = 1
    ∧ (runFeedsSnapshot envDemo cutoffDemo [] [] [[entryNew], [entryNew]]).2 = 2 := by decide

/-- C9 (amended): with an empty configured feed list the run exits
cleanly with zero new records and inserts nothing — every surviving
record was already stored — but the retention sweeper runs before the
emptiness check, so the store may shrink to exactly the sweep's
result. -/
theorem c9_empty_feed_list (env : Env) (sweepCutoff saveCutoff : String) (store : List Article) :
    mainRun env sweepCutoff saveCutoff store [] = ((delete_older_than sweepCutoff store).1, 0)
    ∧ ∀ r ∈ (mainRun env sweepCutoff saveCutoff store []).1, r ∈ store := by
  constructor
  · rfl
  · intro r hr
    exact (mem_delete_older_than.mp hr).1

/-- C9 witness: with no record older than the sweep cutoff, the empty
feed list leaves the store unchanged and reports zero. -/
theorem c9_empty_feed_list_witness :
    mainRun envDemo cutoffDemo cutoffDemo [articleNew] [] = ([articleNew], 0) := by
  have h := (c9_empty_feed_list envDemo cutoffDemo cutoffDemo [articleNew]).1
  rw [h]
  decide

/-- C9 counterexample: with an old stored record and an empty feed
list, the run is not free of store changes: the sweeper, run before the
emptiness check, deletes the record. -/
theorem c9_counterexample :
    mainRun envDemo cutoffDemo cutoffDemo [oldArticle] [] = ([], 0)
    ∧ [oldArticle] ≠ ([] : List Article) := by decide
